import Mathlib

/-!
Verification of the ingestion, tagging, favorites, digest and auth logic of
the theory_scrapper repository, as a shallow embedding in Lean 4.

Conventions of the embedding:
* Python `None`-able strings become `Option String`; Python's truthiness on
  strings/`None` (used by `or` chains and `if not x`) is `pyTruthy`.
* The SQLAlchemy paper table is a `List Paper`; `Paper.query.filter_by`
  lookups become `List.find?` over that list (session-pending inserts are
  visible to later queries, which matches autoflush semantics).
* Timestamps are integer seconds (`Int`); `datetime.utcnow()` is a `now`
  parameter; the external `dateutil` parser is a parameter
  `pd : String → Option Int` (`none` = the parse raised).
* Network fetches (`arxiv.Client().results`, `feedparser.parse`) are
  parameters of type `Except String _`: `.error` models a network or parse
  failure raised by that fetch.
* The external werkzeug password hasher is a parameter `hash : String → String`
  with `check_password_hash h p` modelled as `h == hash p`; the external
  `email_validator.validate_email` is a parameter `String → Option String`
  (`none` = `EmailNotValidError`, `some e` = the normalized `.email`).
-/

namespace TheoryScrapper

/-- Python truthiness for an optional string: `None` and `""` are falsy. -/
def pyTruthy : Option String → Bool
  | none => false
  | some s => s != ""

/-- Python `a or b` on optional strings: `b` when `a` is falsy, else `a`. -/
def pyOr (a b : Option String) : Option String := if pyTruthy a then a else b

/-- Contiguous-substring test on character lists: the needle is a prefix of
some suffix of the haystack. -/
def listContains (needle : List Char) : List Char → Bool
  | [] => needle.isPrefixOf []
  | c :: cs => needle.isPrefixOf (c :: cs) || listContains needle cs

/-- Python `needle in hay` on strings: contiguous substring test. -/
def strContains (hay needle : String) : Bool := listContains needle.data hay.data

/-- A regex word character (`\w`): ASCII letter, digit or underscore. -/
def isWordChar (c : Char) : Bool := c.isAlphanum || c == '_'

/-- Word-character test of the character at an optional position; out of the
string counts as non-word. -/
def wordOpt : Option Char → Bool
  | none => false
  | some c => isWordChar c

/-- A regex word boundary `\b` between two (optional) adjacent characters:
exactly one side is a word character. -/
def boundB (a b : Option Char) : Bool := wordOpt a != wordOpt b

/-- Match of the literal token `tok` at the head of `rest`, followed by a word
boundary (the trailing `\b` of the pattern). -/
def tokMatch (tok rest : List Char) : Bool :=
  tok.isPrefixOf rest && boundB tok.getLast? (rest.drop tok.length).head?

/-- The regex search `re.search(r'\b' + kw + r's?\b', text)` over the suffixes
of the text: `prev` is the character just before `rest` (none at the start).
At each position it tries `kw ++ "s"` then `kw`, each bounded by `\b`. -/
def searchFrom (kw : List Char) : Option Char → List Char → Bool
  | prev, [] => boundB prev none && (tokMatch (kw ++ ['s']) [] || tokMatch kw [])
  | prev, c :: cs =>
    (boundB prev (some c) &&
      (tokMatch (kw ++ ['s']) (c :: cs) || tokMatch kw (c :: cs))) ||
    searchFrom kw (some c) cs

/-- Whole-word, plural-tolerant match of a vocabulary term against a text
(`re.search(r'\b' + re.escape(kw) + r's?\b', text)` in `extract_keywords`). -/
def wordMatch (kw text : String) : Bool := searchFrom kw.data none text.data

/-- The fixed physics vocabulary (`PHYSICS_KEYWORDS` in `app/arxiv_client.py`). -/
def PHYSICS_KEYWORDS : List String :=
  ["hadron", "quark", "gluon", "meson", "baryon", "qcd", "lattice",
   "pion", "kaon", "proton", "neutron", "nucleon", "parton",
   "confinement", "chiral", "symmetry", "scattering", "decay",
   "cross-section", "form factor", "pdf", "gpd", "tmd",
   "drell-yan", "deep inelastic", "fragmentation", "jet",
   "heavy quark", "charm", "bottom", "charmonium", "bottomonium",
   "exotic", "tetraquark", "pentaquark", "glueball", "hybrid",
   "effective field theory", "eft", "perturbative", "non-perturbative",
   "renormalization", "factorization", "resummation",
   "collider", "lhc", "rhic", "electron-ion", "eic",
   "qgp", "quark-gluon plasma", "heavy-ion", "nuclear"]

/-- Python `s.lower()` (ASCII model): lowercase each character. Implemented
over the character list so that it evaluates inside the kernel. -/
def strLower (s : String) : String := String.mk (s.data.map Char.toLower)

/-- `extract_keywords(title, abstract)` of `app/arxiv_client.py`: lowercase the
concatenation `f"{title} {abstract}"` and keep every vocabulary term whose
whole-word (optionally plural) pattern occurs in it. The Python set of found
keywords is modelled as the sublist of the vocabulary that matched. -/
def extract_keywords (title abstract : String) : List String :=
  PHYSICS_KEYWORDS.filter (fun kw => wordMatch kw (strLower (title ++ " " ++ abstract)))

/-- Python regex whitespace `\s` (ASCII). -/
def pyIsSpace (c : Char) : Bool :=
  c == ' ' || c == '\t' || c == '\n' || c == '\r' || c == '\x0b' || c == '\x0c'

/-- Python `s.strip()` (ASCII model): drop leading and trailing whitespace. -/
def pyStrip (s : String) : String :=
  String.mk (((s.data.dropWhile pyIsSpace).reverse.dropWhile pyIsSpace).reverse)

/-- Attempted match of the DOI pattern `10\.\d{4,}/[^\s]+` anchored at the head
of the character list; returns the matched characters. -/
def doiMatchAt : List Char → Option (List Char)
  | '1' :: '0' :: '.' :: rest =>
    if 4 ≤ (rest.takeWhile Char.isDigit).length then
      match rest.dropWhile Char.isDigit with
      | '/' :: rest3 =>
        if (rest3.takeWhile (fun c => !pyIsSpace c)).length == 0 then none
        else some ('1' :: '0' :: '.' ::
          (rest.takeWhile Char.isDigit ++ '/' :: rest3.takeWhile (fun c => !pyIsSpace c)))
      | _ => none
    else none
  | _ => none

/-- Leftmost match of the DOI pattern in a character list (`re.search`). -/
def doiSearch : List Char → Option (List Char)
  | [] => none
  | c :: cs =>
    match doiMatchAt (c :: cs) with
    | some m => some m
    | none => doiSearch cs

/-- Python `s.rstrip('/')`: drop trailing slash characters. -/
def rstripSlash (s : List Char) : List Char :=
  (s.reverse.dropWhile (fun c => c == '/')).reverse

/-- `extract_doi_from_link(link)` of `app/journal_client.py`: `None` for a
missing or empty link; otherwise, when the link contains `"10."`, the leftmost
match of `10\.\d{4,}/[^\s]+` with trailing slashes stripped; `None` if the
pattern does not occur. -/
def extract_doi_from_link (link : Option String) : Option String :=
  match link with
  | none => none
  | some l =>
    if l == "" then none
    else if strContains l "10." then
      match doiSearch l.data with
      | some m => some (String.mk (rstripSlash m))
      | none => none
    else none

/-- `parse_date(date_str)` of `app/journal_client.py`: the current ingestion
time `now` when the string is missing or empty, the external parser's result
when it parses, and `now` again when the parser raises (`pd` returns none). -/
def parse_date (now : Int) (pd : String → Option Int) : Option String → Int
  | none => now
  | some s => if s == "" then now else match pd s with | some d => d | none => now

/-- A stored paper row (`Paper` of `app/models.py`), together with the names of
the keywords attached to it through the `paper_keywords` association. -/
structure Paper where
  external_id : String
  source : String
  title : String
  authors : String
  abstract : String
  categories : String
  published_date : Int
  pdf_url : Option String
  doi : Option String
  journal : Option String
  keywords : List String
deriving DecidableEq, Repr

/-- The external ids of the stored papers, in storage order. -/
def ids (store : List Paper) : List String := store.map (fun p => p.external_id)

/-- A raw feedparser entry, each field as `entry.get(...)` sees it: `none` for
a missing key. An element of `authorsList` is the `name` key of one author
dict (`a.get('name', '')` in the source). -/
structure RawEntry where
  title : Option String := none
  summary : Option String := none
  description : Option String := none
  prism_doi : Option String := none
  dc_identifier : Option String := none
  link : Option String := none
  id : Option String := none
  authorsList : Option (List (Option String)) := none
  author : Option String := none
  dc_creator : Option String := none
  published : Option String := none
  prism_publicationdate : Option String := none
  updated : Option String := none

/-- One entry of `JOURNAL_FEEDS` in `app/journal_client.py`. -/
structure FeedConfig where
  name : String
  url : String
  source : String

/-- The title of a journal entry: `entry.get('title', '')`. -/
def journalTitle (e : RawEntry) : String := e.title.getD ""

/-- The summary of a journal entry:
`entry.get('summary', entry.get('description', ''))`. -/
def journalSummary (e : RawEntry) : String :=
  match e.summary with
  | some s => s
  | none => e.description.getD ""

/-- The hadron relevance test of `fetch_journal_papers`: with filtering off
every entry is kept; with filtering on the entry is kept exactly when the
lowercased `f"{title} {summary}"` contains some configured term (lowercased)
as a substring. -/
def hadronKeep (filterHadron : Bool) (terms : List String)
    (title summary : String) : Bool :=
  !filterHadron ||
    terms.any (fun t => strContains (strLower (title ++ " " ++ summary)) (strLower t))

/-- The `doi` local of `fetch_journal_papers`:
`entry.get('prism_doi') or entry.get('dc_identifier') or
extract_doi_from_link(entry.get('link'))`. -/
def journalDoi (e : RawEntry) : Option String :=
  pyOr (pyOr e.prism_doi e.dc_identifier) (extract_doi_from_link e.link)

/-- The `external_id` local of `fetch_journal_papers`:
`doi or entry.get('id') or entry.get('link')`. -/
def journalExternalId (e : RawEntry) : Option String :=
  pyOr (journalDoi e) (pyOr e.id e.link)

/-- The authors display string of a journal entry (the `authors`/`author`/
`dc_creator` cascade of `fetch_journal_papers`). -/
def journalAuthors (e : RawEntry) : String :=
  match e.authorsList with
  | some l => String.intercalate ", " (l.map (fun a => a.getD ""))
  | none =>
    match e.author with
    | some a => a
    | none => e.dc_creator.getD ""

/-- The date string handed to `parse_date` by `fetch_journal_papers`:
`entry.get('published') or entry.get('prism_publicationdate') or
entry.get('updated')`. -/
def journalDateStr (e : RawEntry) : Option String :=
  pyOr (pyOr e.published e.prism_publicationdate) e.updated

/-- The key under which a journal entry would be deduplicated: `none` when the
hadron filter discards it or its resolved external id is falsy, otherwise the
resolved external id. This is a pure function of the entry — the store plays
no part in it. -/
def journalKey (filterHadron : Bool) (terms : List String) (e : RawEntry) :
    Option String :=
  if hadronKeep filterHadron terms (journalTitle e) (journalSummary e) then
    match journalExternalId e with
    | some k => if k == "" then none else some k
    | none => none
  else none

/-- The `Paper(...)` constructed for a fresh journal entry in
`fetch_journal_papers`. -/
def mkJournalPaper (cfg : FeedConfig) (now : Int) (pd : String → Option Int)
    (e : RawEntry) (eid : String) : Paper :=
  { external_id := eid
    source := cfg.source
    title := journalTitle e
    authors := journalAuthors e
    abstract := journalSummary e
    categories := cfg.name
    published_date := parse_date now pd (journalDateStr e)
    pdf_url := e.link
    doi := journalDoi e
    journal := some cfg.name
    keywords := extract_keywords (journalTitle e) (journalSummary e) }

/-- One iteration of the entry loop of `fetch_journal_papers`: given the
current store, the entry either is discarded (`continue`), or the existing
paper with its external id is appended to the output, or a fresh paper is
created, added to the session and appended. Returns (papers appended, new
store). -/
def processJournalEntry (filterHadron : Bool) (terms : List String)
    (cfg : FeedConfig) (now : Int) (pd : String → Option Int)
    (store : List Paper) (e : RawEntry) : List Paper × List Paper :=
  if hadronKeep filterHadron terms (journalTitle e) (journalSummary e) then
    match journalExternalId e with
    | none => ([], store)
    | some eid =>
      if eid == "" then ([], store)
      else
        match store.find? (fun p => p.external_id == eid) with
        | some existing => ([existing], store)
        | none =>
          ([mkJournalPaper cfg now pd e eid], store ++ [mkJournalPaper cfg now pd e eid])
  else ([], store)

/-- The sequential ingestion loop shared by both fetchers: fold a per-item
step over the items, threading the store and concatenating the appended
papers. -/
def ingestLoop (step : List Paper → α → List Paper × List Paper) :
    List α → List Paper → List Paper × List Paper
  | [], store => ([], store)
  | x :: xs, store =>
    let r := step store x
    let rest := ingestLoop step xs r.2
    (r.1 ++ rest.1, rest.2)

/-- The entry loop of `fetch_journal_papers` over one parsed feed. -/
def runEntries (filterHadron : Bool) (terms : List String) (cfg : FeedConfig)
    (now : Int) (pd : String → Option Int) (es : List RawEntry)
    (store : List Paper) : List Paper × List Paper :=
  ingestLoop (fun s e => processJournalEntry filterHadron terms cfg now pd s e) es store

/-- `fetch_journal_papers` of `app/journal_client.py` over a list of feeds,
each paired with the outcome of `feedparser.parse` on its URL: a feed whose
fetch raised is logged and skipped (`except ... continue`), an ok feed runs
the entry loop. Returns (papers returned, final store). -/
def fetch_journal_papers (filterHadron : Bool) (terms : List String)
    (now : Int) (pd : String → Option Int) :
    List (FeedConfig × Except String (List RawEntry)) → List Paper →
    List Paper × List Paper
  | [], store => ([], store)
  | (_, Except.error _) :: fs, store => fetch_journal_papers filterHadron terms now pd fs store
  | (cfg, Except.ok es) :: fs, store =>
    let r := runEntries filterHadron terms cfg now pd es store
    let rest := fetch_journal_papers filterHadron terms now pd fs r.2
    (r.1 ++ rest.1, rest.2)

/-- One arXiv API search result, with the fields `fetch_hadron_papers`
reads. `published` is already the tz-stripped timestamp. -/
structure ArxivResult where
  entry_id : String
  title : String
  summary : String
  authors : List String
  categories : List String
  published : Int
  pdf_url : Option String
  doi : Option String

/-- The key under which an arXiv result would be deduplicated: `none` when it
is older than the cutoff (skipped), else its `entry_id`. -/
def arxivKey (cutoff : Int) (r : ArxivResult) : Option String :=
  if r.published < cutoff then none else some r.entry_id

/-- The `Paper(...)` constructed for a fresh arXiv result in
`fetch_hadron_papers`. -/
def mkArxivPaper (r : ArxivResult) : Paper :=
  { external_id := r.entry_id
    source := "arxiv"
    title := r.title
    authors := String.intercalate ", " r.authors
    abstract := r.summary
    categories := String.intercalate ", " r.categories
    published_date := r.published
    pdf_url := r.pdf_url
    doi := match r.doi with
      | some d => if d == "" then none else some d
      | none => none
    journal := none
    keywords := extract_keywords r.title r.summary }

/-- One iteration of the result loop of `fetch_hadron_papers`: skip a result
older than the cutoff, append the existing paper when the `entry_id` is
already stored, otherwise create and store a new paper. -/
def processArxivResult (cutoff : Int) (store : List Paper) (r : ArxivResult) :
    List Paper × List Paper :=
  if r.published < cutoff then ([], store)
  else
    match store.find? (fun p => p.external_id == r.entry_id) with
    | some existing => ([existing], store)
    | none => ([mkArxivPaper r], store ++ [mkArxivPaper r])

/-- `fetch_hadron_papers` of `app/arxiv_client.py` over the results the arXiv
client produced: the result loop with cutoff filtering and deduplication. -/
def fetch_hadron_papers (cutoff : Int) (rs : List ArxivResult)
    (store : List Paper) : List Paper × List Paper :=
  ingestLoop (processArxivResult cutoff) rs store

/-- `fetch_all_sources` of `app/journal_client.py`: run the arXiv fetch under
its own try/except (a raised fetch contributes nothing), then the journal
fetch on the resulting store, and return the concatenated papers. -/
def fetch_all_sources (cutoff : Int) (filterHadron : Bool) (terms : List String)
    (now : Int) (pd : String → Option Int)
    (arxivRes : Except String (List ArxivResult))
    (feeds : List (FeedConfig × Except String (List RawEntry)))
    (store : List Paper) : List Paper × List Paper :=
  let r1 :=
    match arxivRes with
    | Except.ok rs => fetch_hadron_papers cutoff rs store
    | Except.error _ => ([], store)
  let r2 := fetch_journal_papers filterHadron terms now pd feeds r1.2
  (r1.1 ++ r2.1, r2.2)

/-- The dedup keys of a list of items under a key function. -/
def keysOf (key : α → Option String) (xs : List α) : List String :=
  xs.filterMap key

/-- The dedup keys of all entries of the ok feeds of a journal fetch. -/
def feedKeys (filterHadron : Bool) (terms : List String)
    (feeds : List (FeedConfig × Except String (List RawEntry))) : List String :=
  feeds.flatMap (fun f =>
    match f.2 with
    | Except.ok es => keysOf (journalKey filterHadron terms) es
    | Except.error _ => [])

/-- The dedup keys of an arXiv fetch outcome. -/
def arxivKeys (cutoff : Int) (arxivRes : Except String (List ArxivResult)) :
    List String :=
  match arxivRes with
  | Except.ok rs => keysOf (arxivKey cutoff) rs
  | Except.error _ => []

/-- A minimal stored paper with a given external id and published timestamp,
for concrete scenarios. -/
def samplePaper (eid : String) (ts : Int) : Paper :=
  ⟨eid, "arxiv", "t", "a", "ab", "c", ts, none, none, none, []⟩

/-- A user row as the digest job reads it (`User` of `app/models.py`). -/
structure DUser where
  email : String
  email_digest_enabled : Bool
deriving DecidableEq, Repr

/-- Insertion into a date-descending list (a structural model of the query's
`order_by(published_date.desc())`). -/
def insertByDateDesc (p : Paper) : List Paper → List Paper
  | [] => [p]
  | q :: qs =>
    if q.published_date ≤ p.published_date then p :: q :: qs
    else q :: insertByDateDesc p qs

/-- Date-descending insertion sort. -/
def sortByDateDesc : List Paper → List Paper
  | [] => []
  | p :: ps => insertByDateDesc p (sortByDateDesc ps)

/-- `get_papers_since(hours)` of `app/arxiv_client.py`: the stored papers whose
published timestamp is at least `utcnow() - timedelta(hours=hours)`, ordered by
published date descending. -/
def get_papers_since (hours : Int) (now : Int) (store : List Paper) :
    List Paper :=
  sortByDateDesc (store.filter (fun p => now - hours * 3600 ≤ p.published_date))

/-- `send_daily_digest` of `scheduler.py`: query the papers of the last 24
hours, take the users whose digest flag is enabled, and attempt one email per
such user; `sendOk` tells whether `mail.send` succeeds for a given address
(a raised send is caught, counted as a failure, and the loop continues).
Returns (`sent_count`, one (address, body papers, succeeded) triple per
attempted recipient, in user order). -/
def send_daily_digest (now : Int) (store : List Paper) (users : List DUser)
    (sendOk : String → Bool) : Nat × List (String × List Paper × Bool) :=
  let papers := get_papers_since 24 now store
  let subscribed := users.filter (fun u => u.email_digest_enabled)
  let attempts := subscribed.map (fun u => (u.email, papers, sendOk u.email))
  ((attempts.filter (fun a => a.2.2)).length, attempts)

/-- `add_favorite(paper_id)` of `app/routes/favorites.py` for the logged-in
user `uid`: `none` models the 404 of `get_or_404` when the paper id is not
stored; otherwise the flashed message and the favorites table after the
request. A favorite row is the pair (user_id, paper_id). -/
def add_favorite (paperIds : List Nat) (favorites : List (Nat × Nat))
    (uid pid : Nat) : Option (String × List (Nat × Nat)) :=
  if pid ∈ paperIds then
    match favorites.find? (fun f => f.1 == uid && f.2 == pid) with
    | some _ => some ("Paper already in favorites.", favorites)
    | none => some ("Paper added to favorites.", favorites ++ [(uid, pid)])
  else none

/-- A user row as the auth routes read it (`User` of `app/models.py`). -/
structure AuthUser where
  email : String
  password_hash : String
  email_digest_enabled : Bool
deriving DecidableEq, Repr

/-- The `register` POST handler of `app/routes/auth.py`: strip and lowercase
the submitted email, run it through the external validator, validate the
password, reject a stored duplicate, else store the new user. `hash` is the
external `generate_password_hash`. Errors are the flashed messages. -/
def register (validate : String → Option String) (hash : String → String)
    (users : List AuthUser) (email password confirm : String) :
    Except String (List AuthUser) :=
  let email1 := strLower (pyStrip email)
  match validate email1 with
  | none => Except.error "invalid email"
  | some email2 =>
    if password.length < 8 then
      Except.error "Password must be at least 8 characters long."
    else if password != confirm then
      Except.error "Passwords do not match."
    else
      match users.find? (fun u => u.email == email2) with
      | some _ => Except.error "Email already registered."
      | none =>
        Except.ok (users ++
          [{ email := email2, password_hash := hash password,
             email_digest_enabled := false }])

/-- The `login` POST handler of `app/routes/auth.py`: strip and lowercase the
submitted email, look the user up by it, and check the password
(`check_password_hash` modelled as equality with the hash of the submitted
password). `some u` is a successful `login_user(u)`. -/
def login (hash : String → String) (users : List AuthUser)
    (email password : String) : Option AuthUser :=
  let e := strLower (pyStrip email)
  match users.find? (fun u => u.email == e) with
  | none => none
  | some u => if u.password_hash == hash password then some u else none

/-- The character just before the current position: the last character of the
prefix `l`, or `prev` when `l` is empty. -/
def prevOf : Option Char → List Char → Option Char
  | prev, [] => prev
  | _, c :: l => prevOf (some c) l

/-- Declarative whole-word occurrence of a vocabulary term in a text, as the
spec words it: the term, optionally with a trailing `s`, occurs as a
contiguous block with a word boundary on each side. -/
def WholeWordOccurrence (kw : String) (text : String) : Prop :=
  ∃ l tok r, (tok = kw.data ∨ tok = kw.data ++ ['s']) ∧
    text.data = l ++ (tok ++ r) ∧
    boundB (prevOf none l) tok.head? = true ∧
    boundB tok.getLast? r.head? = true

/-- Declarative substring occurrence, as the spec words the journal filter. -/
def SubstringOccurrence (needle hay : String) : Prop :=
  ∃ l r, hay.data = l ++ (needle.data ++ r)

/-- Modelled from the spec: the external-id resolution order claim C3 states —
the DOI field (`prism_doi`, else `dc_identifier`) if present; otherwise the
feed-provided unique id; otherwise the entry's canonical link. It does not
consult a DOI extracted from the link. -/
def claimExternalId (e : RawEntry) : Option String :=
  pyOr (pyOr e.prism_doi e.dc_identifier) (pyOr e.id e.link)

/-- The external-id resolution order the code implements, stated
declaratively: the DOI field (`prism_doi`, else `dc_identifier`) if truthy;
otherwise a DOI extracted from the link if one exists; otherwise the feed id
if truthy; otherwise the link. -/
def amendedExternalId (e : RawEntry) : Option String :=
  if pyTruthy e.prism_doi then e.prism_doi
  else if pyTruthy e.dc_identifier then e.dc_identifier
  else
    match extract_doi_from_link e.link with
    | some d => some d
    | none => if pyTruthy e.id then e.id else e.link

/-- A concrete journal entry with no DOI field, a feed-provided unique id,
and a canonical link that bears a DOI pattern. -/
def doiLinkEntry : RawEntry :=
  { prism_doi := none
    dc_identifier := none
    id := some "urn:feed:1"
    link := some "https://doi.org/10.1234/abcd" }

/-- Membership in the stored external ids. -/
theorem mem_ids {store : List Paper} {k : String} :
    k ∈ ids store ↔ ∃ p ∈ store, p.external_id = k := by
  simp [ids, List.mem_map]

/-- The dedup lookup misses exactly when the id is not stored. -/
theorem find_ext_eq_none {store : List Paper} {k : String} :
    store.find? (fun p => p.external_id == k) = none ↔ k ∉ ids store := by
  rw [List.find?_eq_none]
  simp [mem_ids]

/-- A stored id makes the dedup lookup hit a stored paper bearing it. -/
theorem exists_find_of_mem_ids {store : List Paper} {k : String}
    (h : k ∈ ids store) :
    ∃ p, store.find? (fun q => q.external_id == k) = some p ∧
      p.external_id = k ∧ p ∈ store := by
  have h1 : (store.find? (fun q => q.external_id == k)).isSome := by
    rw [List.find?_isSome]
    obtain ⟨p, hp, he⟩ := mem_ids.1 h
    exact ⟨p, hp, by simp [he]⟩
  obtain ⟨p, hp⟩ := Option.isSome_iff_exists.1 h1
  refine ⟨p, hp, ?_, List.mem_of_find?_eq_some hp⟩
  simpa using List.find?_some hp

/-- The journal entry step, rewritten through its dedup key: a keyless entry is
dropped, a stored key returns the found paper, a fresh key inserts the
constructed paper. -/
theorem processJournalEntry_eq (f : Bool) (t : List String) (cfg : FeedConfig)
    (now : Int) (pd : String → Option Int) (store : List Paper) (e : RawEntry) :
    processJournalEntry f t cfg now pd store e =
      match journalKey f t e with
      | none => ([], store)
      | some k =>
        match store.find? (fun p => p.external_id == k) with
        | some existing => ([existing], store)
        | none =>
          ([mkJournalPaper cfg now pd e k], store ++ [mkJournalPaper cfg now pd e k]) := by
  unfold processJournalEntry journalKey
  cases hH : hadronKeep f t (journalTitle e) (journalSummary e)
  · simp
  · cases hE : journalExternalId e
    · simp
    · rename_i k
      by_cases hk : k = "" <;> simp [hk]

/-- The arXiv result step, rewritten through its dedup key. -/
theorem processArxivResult_eq (cutoff : Int) (store : List Paper)
    (r : ArxivResult) :
    processArxivResult cutoff store r =
      match arxivKey cutoff r with
      | none => ([], store)
      | some k =>
        match store.find? (fun p => p.external_id == k) with
        | some existing => ([existing], store)
        | none => ([mkArxivPaper r], store ++ [mkArxivPaper r]) := by
  unfold processArxivResult arxivKey
  by_cases h : r.published < cutoff <;> simp [h]

/-- What the per-item lemmas need of an ingestion step: drop without a key,
leave the store alone when the key is stored, append exactly one paper bearing
the key when it is fresh. -/
def StepSpec {α : Type} (key : α → Option String)
    (step : List Paper → α → List Paper × List Paper) : Prop :=
  ∀ store x,
    (key x = none → step store x = ([], store)) ∧
    (∀ k, key x = some k → k ∈ ids store → (step store x).2 = store) ∧
    (∀ k, key x = some k → k ∉ ids store →
      ∃ p, p.external_id = k ∧ step store x = ([p], store ++ [p]))

/-- The journal entry step satisfies the step specification. -/
theorem journalStepSpec (f : Bool) (t : List String) (cfg : FeedConfig)
    (now : Int) (pd : String → Option Int) :
    StepSpec (journalKey f t)
      (fun s e => processJournalEntry f t cfg now pd s e) := by
  intro store e
  dsimp only
  refine ⟨?_, ?_, ?_⟩
  · intro h
    rw [processJournalEntry_eq, h]
  · intro k hk hmem
    obtain ⟨p, hp, -, -⟩ := exists_find_of_mem_ids hmem
    rw [processJournalEntry_eq, hk]
    simp [hp]
  · intro k hk hmem
    rw [processJournalEntry_eq, hk]
    have hf := find_ext_eq_none.2 hmem
    simp only [hf]
    exact ⟨mkJournalPaper cfg now pd e k, rfl, rfl⟩

/-- The arXiv result step satisfies the step specification. -/
theorem arxivStepSpec (cutoff : Int) :
    StepSpec (arxivKey cutoff) (processArxivResult cutoff) := by
  intro store r
  refine ⟨?_, ?_, ?_⟩
  · intro h
    rw [processArxivResult_eq, h]
  · intro k hk hmem
    obtain ⟨p, hp, -, -⟩ := exists_find_of_mem_ids hmem
    rw [processArxivResult_eq, hk]
    simp [hp]
  · intro k hk hmem
    have hk' : k = r.entry_id := by
      unfold arxivKey at hk
      by_cases h : r.published < cutoff
      · rw [if_pos h] at hk
        cases hk
      · rw [if_neg h] at hk
        exact (Option.some.inj hk).symm
    subst hk'
    rw [processArxivResult_eq, hk]
    have hf := find_ext_eq_none.2 hmem
    simp only [hf]
    exact ⟨mkArxivPaper r, rfl, rfl⟩

/-- One ingestion step never shrinks the set of stored ids. -/
theorem step_ids_subset {α : Type} {key : α → Option String}
    {step : List Paper → α → List Paper × List Paper} (hs : StepSpec key step)
    (store : List Paper) (x : α) : ids store ⊆ ids (step store x).2 := by
  obtain ⟨h0, h1, h2⟩ := hs store x
  cases hk : key x
  · rw [h0 hk]
    exact fun a ha => ha
  · rename_i k
    by_cases hmem : k ∈ ids store
    · rw [h1 k hk hmem]
      exact fun a ha => ha
    · obtain ⟨p, -, hp⟩ := h2 k hk hmem
      rw [hp]
      simp [ids]

/-- The ingestion loop never shrinks the set of stored ids. -/
theorem ingestLoop_ids_subset {α : Type} {key : α → Option String}
    {step : List Paper → α → List Paper × List Paper} (hs : StepSpec key step) :
    ∀ (xs : List α) (store : List Paper),
      ids store ⊆ ids (ingestLoop step xs store).2
  | [], _ => fun _ h => h
  | x :: xs, store => by
    simp only [ingestLoop]
    exact fun a ha =>
      ingestLoop_ids_subset hs xs (step store x).2 (step_ids_subset hs store x ha)

/-- Membership among the keys of a list of items. -/
theorem mem_keysOf {α : Type} {key : α → Option String} {xs : List α}
    {k : String} : k ∈ keysOf key xs ↔ ∃ x ∈ xs, key x = some k := by
  simp [keysOf, List.mem_filterMap]

/-- When every key of the items is already stored, the loop leaves the store
unchanged. -/
theorem ingestLoop_stable {α : Type} {key : α → Option String}
    {step : List Paper → α → List Paper × List Paper} (hs : StepSpec key step) :
    ∀ (xs : List α) (store : List Paper),
      (∀ k ∈ keysOf key xs, k ∈ ids store) →
      (ingestLoop step xs store).2 = store
  | [], _, _ => rfl
  | x :: xs, store, h => by
    obtain ⟨h0, h1, h2⟩ := hs store x
    have hstep : (step store x).2 = store := by
      cases hk : key x
      · rw [h0 hk]
      · rename_i k
        refine h1 k hk (h k (mem_keysOf.2 ⟨x, List.mem_cons_self x xs, hk⟩))
    simp only [ingestLoop]
    rw [hstep]
    exact ingestLoop_stable hs xs store fun k hkk => by
      obtain ⟨y, hy, hyk⟩ := mem_keysOf.1 hkk
      exact h k (mem_keysOf.2 ⟨y, List.mem_cons_of_mem x hy, hyk⟩)

/-- After the loop, every key of the items is stored. -/
theorem ingestLoop_covers {α : Type} {key : α → Option String}
    {step : List Paper → α → List Paper × List Paper} (hs : StepSpec key step) :
    ∀ (xs : List α) (store : List Paper) (k : String),
      k ∈ keysOf key xs → k ∈ ids (ingestLoop step xs store).2
  | [], _, _, hk => absurd (mem_keysOf.1 hk) (by simp)
  | x :: xs, store, k, hk => by
    simp only [ingestLoop]
    obtain ⟨y, hy, hyk⟩ := mem_keysOf.1 hk
    rcases List.mem_cons.1 hy with hy1 | hy2
    · subst hy1
      obtain ⟨h0, h1, h2⟩ := hs store y
      by_cases hmem : k ∈ ids store
      · refine ingestLoop_ids_subset hs xs _ ?_
        rw [h1 k hyk hmem]
        exact hmem
      · obtain ⟨p, hpk, hp⟩ := h2 k hyk hmem
        refine ingestLoop_ids_subset hs xs _ ?_
        rw [hp]
        simp [ids, hpk]
    · exact ingestLoop_covers hs xs (step store x).2 k
        (mem_keysOf.2 ⟨y, hy2, hyk⟩)

/-- The loop preserves distinctness of the stored ids. -/
theorem ingestLoop_nodup {α : Type} {key : α → Option String}
    {step : List Paper → α → List Paper × List Paper} (hs : StepSpec key step) :
    ∀ (xs : List α) (store : List Paper),
      (ids store).Nodup → (ids (ingestLoop step xs store).2).Nodup
  | [], _, h => h
  | x :: xs, store, h => by
    simp only [ingestLoop]
    refine ingestLoop_nodup hs xs (step store x).2 ?_
    obtain ⟨h0, h1, h2⟩ := hs store x
    cases hk : key x
    · rw [h0 hk]; exact h
    · rename_i k
      by_cases hmem : k ∈ ids store
      · rw [h1 k hk hmem]; exact h
      · obtain ⟨p, hpk, hp⟩ := h2 k hk hmem
        rw [hp]
        have : ids (store ++ [p]) = ids store ++ [k] := by
          simp [ids, hpk]
        rw [this, List.nodup_append]
        refine ⟨h, List.nodup_singleton k, fun a ha hb => ?_⟩
        rw [List.mem_singleton] at hb
        exact hmem (hb ▸ ha)

/-- Keys contributed by a failing feed: none. -/
theorem feedKeys_cons_error (f : Bool) (t : List String) (cfg : FeedConfig)
    (m : String) (fs : List (FeedConfig × Except String (List RawEntry))) :
    feedKeys f t ((cfg, Except.error m) :: fs) = feedKeys f t fs := by
  simp [feedKeys]

/-- Keys contributed by an ok feed: its entries' keys. -/
theorem feedKeys_cons_ok (f : Bool) (t : List String) (cfg : FeedConfig)
    (es : List RawEntry) (fs : List (FeedConfig × Except String (List RawEntry))) :
    feedKeys f t ((cfg, Except.ok es) :: fs) =
      keysOf (journalKey f t) es ++ feedKeys f t fs := by
  simp [feedKeys]

/-- The journal fetch never shrinks the set of stored ids. -/
theorem fjp_ids_subset (f : Bool) (t : List String) (now : Int)
    (pd : String → Option Int) :
    ∀ (feeds : List (FeedConfig × Except String (List RawEntry)))
      (store : List Paper),
      ids store ⊆ ids (fetch_journal_papers f t now pd feeds store).2
  | [], _ => fun _ h => h
  | (_, Except.error _) :: fs, store => by
    simp only [fetch_journal_papers]
    exact fjp_ids_subset f t now pd fs store
  | (cfg, Except.ok es) :: fs, store => by
    simp only [fetch_journal_papers, runEntries]
    exact fun a ha => fjp_ids_subset f t now pd fs _
      (ingestLoop_ids_subset (journalStepSpec f t cfg now pd) es store ha)

/-- When every key of every ok feed is already stored, the journal fetch
leaves the store unchanged. -/
theorem fjp_stable (f : Bool) (t : List String) (now : Int)
    (pd : String → Option Int) :
    ∀ (feeds : List (FeedConfig × Except String (List RawEntry)))
      (store : List Paper),
      (∀ k ∈ feedKeys f t feeds, k ∈ ids store) →
      (fetch_journal_papers f t now pd feeds store).2 = store
  | [], _, _ => rfl
  | (cfg, Except.error m) :: fs, store, h => by
    simp only [fetch_journal_papers]
    refine fjp_stable f t now pd fs store fun k hk => h k ?_
    rw [feedKeys_cons_error]
    exact hk
  | (cfg, Except.ok es) :: fs, store, h => by
    simp only [fetch_journal_papers, runEntries]
    have hrun : (ingestLoop
        (fun s e => processJournalEntry f t cfg now pd s e) es store).2 = store := by
      refine ingestLoop_stable (journalStepSpec f t cfg now pd) es store fun k hk => h k ?_
      rw [feedKeys_cons_ok]
      exact List.mem_append_left _ hk
    rw [hrun]
    refine fjp_stable f t now pd fs store fun k hk => h k ?_
    rw [feedKeys_cons_ok]
    exact List.mem_append_right _ hk

/-- After the journal fetch, every key of every ok feed is stored. -/
theorem fjp_covers (f : Bool) (t : List String) (now : Int)
    (pd : String → Option Int) :
    ∀ (feeds : List (FeedConfig × Except String (List RawEntry)))
      (store : List Paper) (k : String),
      k ∈ feedKeys f t feeds →
      k ∈ ids (fetch_journal_papers f t now pd feeds store).2
  | [], _, _, hk => absurd hk (by simp [feedKeys])
  | (cfg, Except.error m) :: fs, store, k, hk => by
    rw [feedKeys_cons_error] at hk
    simp only [fetch_journal_papers]
    exact fjp_covers f t now pd fs store k hk
  | (cfg, Except.ok es) :: fs, store, k, hk => by
    rw [feedKeys_cons_ok] at hk
    simp only [fetch_journal_papers, runEntries]
    rcases List.mem_append.1 hk with h1 | h2
    · exact fjp_ids_subset f t now pd fs _
        (ingestLoop_covers (journalStepSpec f t cfg now pd) es store k h1)
    · exact fjp_covers f t now pd fs _ k h2

/-- The journal fetch preserves distinctness of the stored ids. -/
theorem fjp_nodup (f : Bool) (t : List String) (now : Int)
    (pd : String → Option Int) :
    ∀ (feeds : List (FeedConfig × Except String (List RawEntry)))
      (store : List Paper),
      (ids store).Nodup →
      (ids (fetch_journal_papers f t now pd feeds store).2).Nodup
  | [], _, h => h
  | (_, Except.error _) :: fs, store, h => by
    simp only [fetch_journal_papers]
    exact fjp_nodup f t now pd fs store h
  | (cfg, Except.ok es) :: fs, store, h => by
    simp only [fetch_journal_papers, runEntries]
    exact fjp_nodup f t now pd fs _
      (ingestLoop_nodup (journalStepSpec f t cfg now pd) es store h)

/-- The combined fetch never shrinks the set of stored ids. -/
theorem fas_ids_subset (cutoff : Int) (f : Bool) (t : List String) (now : Int)
    (pd : String → Option Int) (arxivRes : Except String (List ArxivResult))
    (feeds : List (FeedConfig × Except String (List RawEntry)))
    (store : List Paper) :
    ids store ⊆ ids (fetch_all_sources cutoff f t now pd arxivRes feeds store).2 := by
  simp only [fetch_all_sources]
  cases arxivRes with
  | ok rs =>
    simp only [fetch_hadron_papers]
    exact fun a ha => fjp_ids_subset f t now pd feeds _
      (ingestLoop_ids_subset (arxivStepSpec cutoff) rs store ha)
  | error m => exact fjp_ids_subset f t now pd feeds store

/-- After the combined fetch, every arXiv key and every journal key is
stored. -/
theorem fas_covers (cutoff : Int) (f : Bool) (t : List String) (now : Int)
    (pd : String → Option Int) (arxivRes : Except String (List ArxivResult))
    (feeds : List (FeedConfig × Except String (List RawEntry)))
    (store : List Paper) (k : String)
    (hk : k ∈ arxivKeys cutoff arxivRes ∨ k ∈ feedKeys f t feeds) :
    k ∈ ids (fetch_all_sources cutoff f t now pd arxivRes feeds store).2 := by
  simp only [fetch_all_sources]
  cases arxivRes with
  | ok rs =>
    simp only [fetch_hadron_papers]
    rcases hk with h1 | h2
    · simp only [arxivKeys] at h1
      exact fjp_ids_subset f t now pd feeds _
        (ingestLoop_covers (arxivStepSpec cutoff) rs store k h1)
    · exact fjp_covers f t now pd feeds _ k h2
  | error m =>
    rcases hk with h1 | h2
    · simp [arxivKeys] at h1
    · exact fjp_covers f t now pd feeds _ k h2

/-- When every arXiv key and every journal key is already stored, the combined
fetch leaves the store unchanged. -/
theorem fas_stable (cutoff : Int) (f : Bool) (t : List String) (now : Int)
    (pd : String → Option Int) (arxivRes : Except String (List ArxivResult))
    (feeds : List (FeedConfig × Except String (List RawEntry)))
    (store : List Paper)
    (ha : ∀ k ∈ arxivKeys cutoff arxivRes, k ∈ ids store)
    (hj : ∀ k ∈ feedKeys f t feeds, k ∈ ids store) :
    (fetch_all_sources cutoff f t now pd arxivRes feeds store).2 = store := by
  simp only [fetch_all_sources]
  cases arxivRes with
  | ok rs =>
    simp only [fetch_hadron_papers]
    have hrun : (ingestLoop (processArxivResult cutoff) rs store).2 = store :=
      ingestLoop_stable (arxivStepSpec cutoff) rs store fun k hk =>
        ha k (by simpa [arxivKeys] using hk)
    rw [hrun]
    exact fjp_stable f t now pd feeds store hj
  | error m => exact fjp_stable f t now pd feeds store hj

/-- The combined fetch preserves distinctness of the stored ids. -/
theorem fas_nodup (cutoff : Int) (f : Bool) (t : List String) (now : Int)
    (pd : String → Option Int) (arxivRes : Except String (List ArxivResult))
    (feeds : List (FeedConfig × Except String (List RawEntry)))
    (store : List Paper) (h : (ids store).Nodup) :
    (ids (fetch_all_sources cutoff f t now pd arxivRes feeds store).2).Nodup := by
  simp only [fetch_all_sources]
  cases arxivRes with
  | ok rs =>
    simp only [fetch_hadron_papers]
    exact fjp_nodup f t now pd feeds _
      (ingestLoop_nodup (arxivStepSpec cutoff) rs store h)
  | error m => exact fjp_nodup f t now pd feeds store h

/-- C1: Ingestion is idempotent. Starting from a store with distinct external
ids, running the whole ingestion pass (`fetch_all_sources`) a second time over
the same source entries leaves the store of the first run unchanged — in
particular the number of stored records is the same after the second run as
after the first — and the stored ids stay distinct. Moreover, whenever an
entry's (or arXiv result's) external id is already stored, the dedup branch of
the entry loop returns exactly the stored record and does not modify the
store. -/
theorem ingestion_idempotent (cutoff : Int) (filterHadron : Bool)
    (terms : List String) (now : Int) (pd : String → Option Int)
    (arxivRes : Except String (List ArxivResult))
    (feeds : List (FeedConfig × Except String (List RawEntry)))
    (store : List Paper) (hstore : (ids store).Nodup) :
    (fetch_all_sources cutoff filterHadron terms now pd arxivRes feeds
        (fetch_all_sources cutoff filterHadron terms now pd arxivRes feeds store).2).2 =
      (fetch_all_sources cutoff filterHadron terms now pd arxivRes feeds store).2 ∧
    (ids (fetch_all_sources cutoff filterHadron terms now pd arxivRes feeds store).2).Nodup ∧
    (∀ (cfg : FeedConfig) (store' : List Paper) (e : RawEntry) (k : String) (p : Paper),
      journalKey filterHadron terms e = some k →
      store'.find? (fun q => q.external_id == k) = some p →
      processJournalEntry filterHadron terms cfg now pd store' e = ([p], store')) ∧
    (∀ (store' : List Paper) (r : ArxivResult) (p : Paper),
      arxivKey cutoff r = some r.entry_id →
      store'.find? (fun q => q.external_id == r.entry_id) = some p →
      processArxivResult cutoff store' r = ([p], store')) := by
  refine ⟨?_, fas_nodup cutoff filterHadron terms now pd arxivRes feeds store hstore,
    ?_, ?_⟩
  · refine fas_stable cutoff filterHadron terms now pd arxivRes feeds _ ?_ ?_
    · intro k hk
      exact fas_covers cutoff filterHadron terms now pd arxivRes feeds store k (Or.inl hk)
    · intro k hk
      exact fas_covers cutoff filterHadron terms now pd arxivRes feeds store k (Or.inr hk)
  · intro cfg store' e k p hk hf
    rw [processJournalEntry_eq, hk]
    simp [hf]
  · intro store' r p hk hf
    rw [processArxivResult_eq, hk]
    simp [hf]

/-- Witness for C1 at a concrete run: one arXiv result and one journal feed
with one entry, ingested twice from the empty store. -/
theorem ingestion_idempotent_witness :
    (fetch_all_sources 0 false [] 0 (fun _ => none)
        (Except.ok [⟨"arx:1", "t", "s", [], [], 5, none, none⟩])
        [(⟨"J", "u", "j"⟩, Except.ok [{ id := some "doi:1", title := some "T" }])]
        (fetch_all_sources 0 false [] 0 (fun _ => none)
          (Except.ok [⟨"arx:1", "t", "s", [], [], 5, none, none⟩])
          [(⟨"J", "u", "j"⟩, Except.ok [{ id := some "doi:1", title := some "T" }])]
          []).2).2 =
      (fetch_all_sources 0 false [] 0 (fun _ => none)
        (Except.ok [⟨"arx:1", "t", "s", [], [], 5, none, none⟩])
        [(⟨"J", "u", "j"⟩, Except.ok [{ id := some "doi:1", title := some "T" }])]
        []).2 :=
  (ingestion_idempotent 0 false [] 0 (fun _ => none)
    (Except.ok [⟨"arx:1", "t", "s", [], [], 5, none, none⟩])
    [(⟨"J", "u", "j"⟩, Except.ok [{ id := some "doi:1", title := some "T" }])]
    [] (by simp [ids])).1

/-- A failing feed contributes nothing to a journal fetch: deleting it from
the feed list changes neither the returned papers nor the final store. -/
theorem fjp_drop_error (f : Bool) (t : List String) (now : Int)
    (pd : String → Option Int) (cfg : FeedConfig) (msg : String) :
    ∀ (pre post : List (FeedConfig × Except String (List RawEntry)))
      (store : List Paper),
      fetch_journal_papers f t now pd (pre ++ (cfg, Except.error msg) :: post) store =
        fetch_journal_papers f t now pd (pre ++ post) store
  | [], post, store => by
    simp only [List.nil_append, fetch_journal_papers]
  | (cfg', Except.error m') :: pre, post, store => by
    simp only [List.cons_append, fetch_journal_papers]
    exact fjp_drop_error f t now pd cfg msg pre post store
  | (cfg', Except.ok es) :: pre, post, store => by
    simp only [List.cons_append, fetch_journal_papers, List.append_eq]
    rw [fjp_drop_error f t now pd cfg msg pre post _]

/-- C2: A network or parse failure in a single source adapter is contained at
that adapter's boundary and treated as zero entries for that source, and the
overall `fetch_all_sources` run still returns the records of the remaining
sources: a raised arXiv fetch leaves exactly the journal fetch's outcome; a
raised feed fetch inside the journal loop is skipped, the run over the other
feeds being unchanged; and with the single journal feed failing, the run
returns exactly the arXiv fetch's outcome. -/
theorem adapter_failure_isolated :
    (∀ (cutoff : Int) (f : Bool) (t : List String) (now : Int)
        (pd : String → Option Int) (msg : String)
        (feeds : List (FeedConfig × Except String (List RawEntry)))
        (store : List Paper),
      fetch_all_sources cutoff f t now pd (Except.error msg) feeds store =
        fetch_journal_papers f t now pd feeds store) ∧
    (∀ (f : Bool) (t : List String) (now : Int) (pd : String → Option Int)
        (cfg : FeedConfig) (msg : String)
        (pre post : List (FeedConfig × Except String (List RawEntry)))
        (store : List Paper),
      fetch_journal_papers f t now pd (pre ++ (cfg, Except.error msg) :: post) store =
        fetch_journal_papers f t now pd (pre ++ post) store) ∧
    (∀ (cutoff : Int) (f : Bool) (t : List String) (now : Int)
        (pd : String → Option Int) (rs : List ArxivResult) (cfg : FeedConfig)
        (msg : String) (store : List Paper),
      fetch_all_sources cutoff f t now pd (Except.ok rs) [(cfg, Except.error msg)] store =
        fetch_hadron_papers cutoff rs store) := by
  refine ⟨?_, ?_, ?_⟩
  · intro cutoff f t now pd msg feeds store
    simp [fetch_all_sources]
  · intro f t now pd cfg msg pre post store
    exact fjp_drop_error f t now pd cfg msg pre post store
  · intro cutoff f t now pd rs cfg msg store
    simp [fetch_all_sources, fetch_journal_papers]

/-- A successful DOI-pattern match starts with the character 1. -/
theorem doiMatchAt_shape {cs m : List Char} (h : doiMatchAt cs = some m) :
    ∃ rest, m = '1' :: rest := by
  unfold doiMatchAt at h
  split at h
  · split at h
    · split at h
      · split at h
        · cases h
        · exact ⟨_, (Option.some.inj h).symm⟩
      · cases h
    · cases h
  · cases h

/-- A successful DOI-pattern search starts with the character 1. -/
theorem doiSearch_shape : ∀ {cs m : List Char}, doiSearch cs = some m →
    ∃ rest, m = '1' :: rest
  | [], _, h => by cases h
  | c :: cs, m, h => by
    unfold doiSearch at h
    cases hd : doiMatchAt (c :: cs) with
    | some m' =>
      simp only [hd] at h
      cases h
      exact doiMatchAt_shape hd
    | none =>
      simp only [hd] at h
      exact doiSearch_shape h

/-- Stripping trailing slashes from a list holding a non-slash character
leaves it nonempty. -/
theorem rstripSlash_ne_nil {s : List Char} (c : Char) (hc : c ∈ s)
    (hne : c ≠ '/') : rstripSlash s ≠ [] := by
  intro h
  unfold rstripSlash at h
  have h2 : s.reverse.dropWhile (fun x => x == '/') = [] := by
    have h1 := congrArg List.reverse h
    simpa using h1
  have h3 := List.dropWhile_eq_nil_iff.1 h2 c (List.mem_reverse.2 hc)
  simp at h3
  exact hne h3

/-- A DOI extracted from a link is never the empty string. -/
theorem extract_doi_ne_empty {l : Option String} {d : String}
    (h : extract_doi_from_link l = some d) : d ≠ "" := by
  cases l with
  | none => cases h
  | some s =>
    unfold extract_doi_from_link at h
    dsimp only at h
    by_cases h1 : (s == "") = true
    · rw [if_pos h1] at h
      cases h
    · rw [if_neg h1] at h
      by_cases h2 : strContains s "10." = true
      · rw [if_pos h2] at h
        cases hm : doiSearch s.data with
        | none =>
          rw [hm] at h
          exact absurd h (by simp)
        | some m =>
          rw [hm] at h
          have hd2 : String.mk (rstripSlash m) = d := Option.some.inj h
          obtain ⟨rest, hrest⟩ := doiSearch_shape hm
          have hmem : '1' ∈ m := by
            rw [hrest]
            exact List.mem_cons_self _ _
          have hne := rstripSlash_ne_nil '1' hmem (by decide)
          intro he
          rw [← hd2] at he
          exact hne (congrArg String.data he)
      · rw [if_neg h2] at h
        cases h

/-- The external-id resolution the code performs agrees everywhere with the
amended declarative order: DOI field (prism, then dc), else DOI extracted from
the link, else feed id, else link. -/
theorem journalExternalId_order (e : RawEntry) :
    journalExternalId e = amendedExternalId e := by
  unfold journalExternalId journalDoi amendedExternalId
  cases hp : pyTruthy e.prism_doi
  · cases hd : pyTruthy e.dc_identifier
    · cases hx : extract_doi_from_link e.link with
      | some dd =>
        have hdd : pyTruthy (some dd) = true := by
          simp [pyTruthy, extract_doi_ne_empty hx]
        simp [pyOr, hp, hd, hx, hdd]
      | none => simp [pyOr, hp, hd, hx, show pyTruthy none = false from rfl]
    · simp [pyOr, hp, hd]
  · simp [pyOr, hp]

/-- An entry whose resolved external id is falsy has no dedup key, whatever
the filter decides. -/
theorem journalKey_none_of_falsy (f : Bool) (t : List String) (e : RawEntry)
    (h : pyTruthy (journalExternalId e) = false) : journalKey f t e = none := by
  unfold journalKey
  cases hH : hadronKeep f t (journalTitle e) (journalSummary e)
  · rfl
  · cases hE : journalExternalId e with
    | none => simp
    | some k =>
      rw [hE] at h
      unfold pyTruthy at h
      simp at h
      simp [h]

/-- C3 counterexample: an entry with no DOI field (`prism_doi` and
`dc_identifier` both missing), a feed-provided id, and a link bearing a DOI
pattern. The claim's resolution order picks the feed id, but the code resolves
the DOI extracted from the link, so the two orders disagree on this entry. -/
theorem external_id_order_counterexample :
    journalExternalId doiLinkEntry = some "10.1234/abcd" ∧
    claimExternalId doiLinkEntry = some "urn:feed:1" ∧
    ¬ journalExternalId doiLinkEntry = claimExternalId doiLinkEntry :=
  ⟨by decide, by decide, by decide⟩

/-- C3 (amended): the external identifier of a journal entry is resolved in
this order — a DOI if one can be determined (from the `prism_doi` field, else
the `dc_identifier` field, else by extracting a DOI pattern from the entry's
link); otherwise the feed-provided unique id; otherwise the entry's canonical
link — and an entry whose resolved identifier is missing or empty is silently
dropped: the entry loop appends nothing and leaves the store unchanged. -/
theorem external_id_resolution_amended :
    (∀ e : RawEntry, journalExternalId e = amendedExternalId e) ∧
    (∀ (f : Bool) (t : List String) (cfg : FeedConfig) (now : Int)
        (pd : String → Option Int) (store : List Paper) (e : RawEntry),
      pyTruthy (journalExternalId e) = false →
      processJournalEntry f t cfg now pd store e = ([], store)) := by
  refine ⟨journalExternalId_order, ?_⟩
  intro f t cfg now pd store e h
  rw [processJournalEntry_eq, journalKey_none_of_falsy f t e h]

/-- The head of an append with a nonempty left part. -/
theorem head?_append_left {α : Type} (tok r : List α) (h : tok ≠ []) :
    (tok ++ r).head? = tok.head? := by
  cases tok
  · exact absurd rfl h
  · rfl

/-- Token match at the head of the text, declaratively: the text starts with
the token and a word boundary follows it. -/
theorem tokMatch_iff (tok rest : List Char) :
    tokMatch tok rest = true ↔
      ∃ r, rest = tok ++ r ∧ boundB tok.getLast? r.head? = true := by
  unfold tokMatch
  rw [Bool.and_eq_true, List.isPrefixOf_iff_prefix]
  constructor
  · rintro ⟨⟨r, hr⟩, hb⟩
    subst hr
    rw [List.drop_left] at hb
    exact ⟨r, rfl, hb⟩
  · rintro ⟨r, hr, hb⟩
    subst hr
    exact ⟨⟨r, rfl⟩, by rw [List.drop_left]; exact hb⟩

/-- The regex search succeeds exactly when the pattern occurs at some split of
the text, with the tracked previous character feeding the leading boundary. -/
theorem searchFrom_iff (kw : List Char) (hkw : kw ≠ []) :
    ∀ (prev : Option Char) (rest : List Char),
      searchFrom kw prev rest = true ↔
        ∃ l tok r, (tok = kw ∨ tok = kw ++ ['s']) ∧ rest = l ++ (tok ++ r) ∧
          boundB (prevOf prev l) tok.head? = true ∧
          boundB tok.getLast? r.head? = true
  | prev, [] => by
    constructor
    · intro h
      exfalso
      unfold searchFrom at h
      rw [Bool.and_eq_true, Bool.or_eq_true] at h
      rcases h with ⟨-, h1 | h1⟩ <;>
      · rw [tokMatch_iff] at h1
        obtain ⟨r, hr, -⟩ := h1
        rw [List.nil_eq, List.append_eq_nil] at hr
        first
        | exact absurd hr.1 hkw
        | exact absurd (List.append_eq_nil.1 hr.1).2 (by simp)
    · rintro ⟨l, tok, r, htok, heq, -, -⟩
      rw [List.nil_eq, List.append_eq_nil] at heq
      have htnil := (List.append_eq_nil.1 heq.2).1
      rcases htok with h | h <;> rw [htnil] at h
      · exact absurd h.symm hkw
      · exact absurd h.symm (by simp)
  | prev, c :: cs => by
    have ih := searchFrom_iff kw hkw (some c) cs
    have htok_ne : ∀ tok : List Char, (tok = kw ∨ tok = kw ++ ['s']) → tok ≠ [] := by
      rintro tok (h | h) <;> subst h
      · exact hkw
      · simp
    unfold searchFrom
    rw [Bool.or_eq_true, Bool.and_eq_true, Bool.or_eq_true]
    constructor
    · rintro (⟨hb, h1 | h1⟩ | hrec)
      · obtain ⟨r, hr, hb2⟩ := (tokMatch_iff _ _).1 h1
        have hne : kw ++ ['s'] ≠ [] := by simp
        have hh : (kw ++ ['s']).head? = some c := by
          have := congrArg List.head? hr
          rw [head?_append_left _ _ hne] at this
          exact this.symm
        exact ⟨[], kw ++ ['s'], r, Or.inr rfl, hr, by rw [prevOf, hh]; exact hb, hb2⟩
      · obtain ⟨r, hr, hb2⟩ := (tokMatch_iff _ _).1 h1
        have hh : kw.head? = some c := by
          have := congrArg List.head? hr
          rw [head?_append_left _ _ hkw] at this
          exact this.symm
        exact ⟨[], kw, r, Or.inl rfl, hr, by rw [prevOf, hh]; exact hb, hb2⟩
      · obtain ⟨l, tok, r, htok, heq, hb1, hb2⟩ := ih.1 hrec
        exact ⟨c :: l, tok, r, htok, by rw [heq]; rfl, hb1, hb2⟩
    · rintro ⟨l, tok, r, htok, heq, hb1, hb2⟩
      cases l with
      | nil =>
        left
        rw [List.nil_append] at heq
        have hh : tok.head? = some c := by
          have := congrArg List.head? heq
          rw [head?_append_left _ _ (htok_ne tok htok)] at this
          exact this.symm
        rw [prevOf, hh] at hb1
        refine ⟨hb1, ?_⟩
        rcases htok with h | h <;> subst h
        · exact Or.inr ((tokMatch_iff _ _).2 ⟨r, heq, hb2⟩)
        · exact Or.inl ((tokMatch_iff _ _).2 ⟨r, heq, hb2⟩)
      | cons c' l' =>
        right
        rw [List.cons_append] at heq
        have hc : c' = c := (List.cons.inj heq.symm).1
        subst hc
        have hcs : cs = l' ++ (tok ++ r) := (List.cons.inj heq).2
        exact ih.2 ⟨l', tok, r, htok, hcs, hb1, hb2⟩

/-- The code's regex match agrees with the declarative whole-word occurrence
for a nonempty keyword. -/
theorem wordMatch_iff_wwo {kw text : String} (h : kw.data ≠ []) :
    wordMatch kw text = true ↔ WholeWordOccurrence kw text := by
  unfold wordMatch WholeWordOccurrence
  exact searchFrom_iff kw.data h none text.data

/-- Membership in the extracted keywords, through the code's matcher. -/
theorem extract_keywords_mem {kw title abstract : String} :
    kw ∈ extract_keywords title abstract ↔
      kw ∈ PHYSICS_KEYWORDS ∧
      wordMatch kw (strLower (title ++ " " ++ abstract)) = true := by
  simp [extract_keywords, List.mem_filter]

/-- Every vocabulary term is a nonempty string. -/
theorem physics_keywords_ne_nil : ∀ kw ∈ PHYSICS_KEYWORDS, kw.data ≠ [] := by
  decide

/-- C4: the keyword tagger performs case-insensitive whole-word matching of
each vocabulary term, with an optional trailing s, against the lowercased
concatenation of title and abstract: a term is extracted exactly when it
occurs as a whole word (optionally pluralised) there. In particular, for
title "New measurement of pion decay" and abstract "We study kaon and
pion...", the result contains "pion", "decay" and "kaon"; and whenever no
vocabulary term occurs as a whole word in the text, the result is empty. -/
theorem extract_keywords_whole_word :
    (∀ (kw title abstract : String),
      kw ∈ extract_keywords title abstract ↔
        kw ∈ PHYSICS_KEYWORDS ∧
        WholeWordOccurrence kw (strLower (title ++ " " ++ abstract))) ∧
    ("pion" ∈ extract_keywords "New measurement of pion decay" "We study kaon and pion..." ∧
     "decay" ∈ extract_keywords "New measurement of pion decay" "We study kaon and pion..." ∧
     "kaon" ∈ extract_keywords "New measurement of pion decay" "We study kaon and pion...") ∧
    (∀ title abstract : String,
      (∀ kw ∈ PHYSICS_KEYWORDS,
        ¬ WholeWordOccurrence kw (strLower (title ++ " " ++ abstract))) →
      extract_keywords title abstract = []) := by
  refine ⟨?_, ⟨by decide, by decide, by decide⟩, ?_⟩
  · intro kw title abstract
    rw [extract_keywords_mem]
    constructor
    · rintro ⟨h1, h2⟩
      exact ⟨h1, (wordMatch_iff_wwo (physics_keywords_ne_nil kw h1)).1 h2⟩
    · rintro ⟨h1, h2⟩
      exact ⟨h1, (wordMatch_iff_wwo (physics_keywords_ne_nil kw h1)).2 h2⟩
  · intro title abstract hnone
    unfold extract_keywords
    rw [List.filter_eq_nil_iff]
    intro kw hkw hM
    exact hnone kw hkw ((wordMatch_iff_wwo (physics_keywords_ne_nil kw hkw)).1 hM)

/-- The substring test agrees with the declarative substring occurrence. -/
theorem listContains_iff (needle : List Char) :
    ∀ hay : List Char,
      listContains needle hay = true ↔ ∃ l r, hay = l ++ (needle ++ r)
  | [] => by
    unfold listContains
    rw [List.isPrefixOf_iff_prefix]
    constructor
    · rintro ⟨t, ht⟩
      have h1 := List.append_eq_nil.1 ht
      exact ⟨[], [], by simp [h1.1]⟩
    · rintro ⟨l, r, h⟩
      have h1 := List.append_eq_nil.1 h.symm
      have h2 := List.append_eq_nil.1 h1.2
      exact ⟨[], by simp [h2.1]⟩
  | c :: cs => by
    unfold listContains
    rw [Bool.or_eq_true, List.isPrefixOf_iff_prefix, listContains_iff needle cs]
    constructor
    · rintro (⟨t, ht⟩ | ⟨l, r, h⟩)
      · exact ⟨[], t, by rw [← ht]; rfl⟩
      · exact ⟨c :: l, r, by rw [h]; rfl⟩
    · rintro ⟨l, r, h⟩
      cases l with
      | nil =>
        rw [List.nil_append] at h
        exact Or.inl ⟨r, h.symm⟩
      | cons c' l' =>
        exact Or.inr ⟨l', r, (List.cons.inj h).2⟩

/-- `strContains` agrees with the declarative substring occurrence. -/
theorem strContains_iff {hay needle : String} :
    strContains hay needle = true ↔ SubstringOccurrence needle hay :=
  listContains_iff needle.data hay.data

/-- C5: with hadron filtering enabled, a journal entry is discarded by the
relevance test exactly when the lowercased concatenation of its title and
summary contains none of the configured terms (lowercased) as a contiguous
substring; with filtering disabled the test discards nothing; and an entry the
test discards is dropped before normalization — the entry loop appends nothing
and leaves the store unchanged. -/
theorem journal_hadron_filter :
    (∀ (terms : List String) (title summary : String),
      hadronKeep true terms title summary = false ↔
        ∀ term ∈ terms,
          ¬ SubstringOccurrence (strLower term) (strLower (title ++ " " ++ summary))) ∧
    (∀ (terms : List String) (title summary : String),
      hadronKeep false terms title summary = true) ∧
    (∀ (f : Bool) (terms : List String) (cfg : FeedConfig) (now : Int)
        (pd : String → Option Int) (store : List Paper) (e : RawEntry),
      hadronKeep f terms (journalTitle e) (journalSummary e) = false →
      processJournalEntry f terms cfg now pd store e = ([], store)) := by
  refine ⟨?_, ?_, ?_⟩
  · intro terms title summary
    unfold hadronKeep
    simp only [Bool.not_true, Bool.false_or]
    rw [← Bool.not_eq_true, List.any_eq_true]
    constructor
    · intro h term hterm hocc
      exact h ⟨term, hterm, strContains_iff.2 hocc⟩
    · rintro h ⟨term, hterm, hc⟩
      exact h term hterm (strContains_iff.1 hc)
  · intro terms title summary
    unfold hadronKeep
    simp
  · intro f terms cfg now pd store e h
    unfold processJournalEntry
    rw [h]
    simp

/-- C6: adding the same (user, paper) favorite twice stores exactly one row:
the first add inserts the row, the second detects it, reports "already in
favorites" and inserts nothing; and any add preserves the invariant that no
(user, paper) pair occurs more than once in the favorites table. -/
theorem favorite_add_twice (paperIds : List Nat) (favorites : List (Nat × Nat))
    (uid pid : Nat) (hp : pid ∈ paperIds) (hnot : (uid, pid) ∉ favorites) :
    add_favorite paperIds favorites uid pid =
      some ("Paper added to favorites.", favorites ++ [(uid, pid)]) ∧
    add_favorite paperIds (favorites ++ [(uid, pid)]) uid pid =
      some ("Paper already in favorites.", favorites ++ [(uid, pid)]) ∧
    List.count (uid, pid) (favorites ++ [(uid, pid)]) = 1 ∧
    (∀ (favs : List (Nat × Nat)) (u v : Nat) (m : String)
        (f' : List (Nat × Nat)),
      add_favorite paperIds favs u v = some (m, f') →
      (∀ a b : Nat, List.count (a, b) favs ≤ 1) →
      (∀ a b : Nat, List.count (a, b) f' ≤ 1)) := by
  have hfind : favorites.find? (fun f => f.1 == uid && f.2 == pid) = none := by
    rw [List.find?_eq_none]
    intro x hx hxe
    simp only [Bool.and_eq_true, beq_iff_eq] at hxe
    apply hnot
    have hxp : x = (uid, pid) := Prod.ext hxe.1 hxe.2
    rw [← hxp]
    exact hx
  have hfind2 : (favorites ++ [(uid, pid)]).find?
      (fun f => f.1 == uid && f.2 == pid) = some (uid, pid) := by
    rw [List.find?_append, hfind]
    simp
  refine ⟨?_, ?_, ?_, ?_⟩
  · unfold add_favorite
    rw [if_pos hp, hfind]
  · unfold add_favorite
    rw [if_pos hp, hfind2]
  · rw [List.count_append, List.count_eq_zero.2 hnot, List.count_singleton]
    simp
  · intro favs u v m f' hadd hbound a b
    unfold add_favorite at hadd
    by_cases hin : v ∈ paperIds
    · rw [if_pos hin] at hadd
      cases hf : favs.find? (fun f => f.1 == u && f.2 == v) with
      | some x =>
        rw [hf] at hadd
        have : f' = favs := (Prod.mk.inj (Option.some.inj hadd)).2.symm
        rw [this]
        exact hbound a b
      | none =>
        rw [hf] at hadd
        have hfe : f' = favs ++ [(u, v)] := (Prod.mk.inj (Option.some.inj hadd)).2.symm
        have hnm : (u, v) ∉ favs := by
          intro hmem
          have := List.find?_eq_none.1 hf (u, v) hmem
          simp at this
        rw [hfe, List.count_append, List.count_singleton]
        by_cases hab : (u, v) = ((a : Nat), (b : Nat))
        · rw [← hab, List.count_eq_zero.2 hnm]
          simp
        · have : ((u, v) == (a, b)) = false := by
            simp [hab]
          rw [this]
          simp
          exact hbound a b
    · rw [if_neg hin] at hadd
      cases hadd

/-- Witness for C6 at a concrete input: paper 1 exists, user 7's favorites
start empty, and the double add stores exactly the one row. -/
theorem favorite_add_twice_witness :
    add_favorite [1] [] 7 1 = some ("Paper added to favorites.", [(7, 1)]) :=
  (favorite_add_twice [1] [] 7 1 (by decide) (by decide)).1

/-- Membership through date-descending insertion. -/
theorem mem_insertByDateDesc {p a : Paper} :
    ∀ {l : List Paper}, a ∈ insertByDateDesc p l ↔ a = p ∨ a ∈ l
  | [] => by simp [insertByDateDesc]
  | q :: qs => by
    unfold insertByDateDesc
    by_cases h : q.published_date ≤ p.published_date
    · rw [if_pos h]
      simp
    · rw [if_neg h]
      rw [List.mem_cons, mem_insertByDateDesc, List.mem_cons]
      tauto

/-- The date-descending sort is a permutation for membership purposes. -/
theorem mem_sortByDateDesc {a : Paper} :
    ∀ {l : List Paper}, a ∈ sortByDateDesc l ↔ a ∈ l
  | [] => Iff.rfl
  | p :: ps => by
    unfold sortByDateDesc
    rw [mem_insertByDateDesc, mem_sortByDateDesc, List.mem_cons]

/-- C7: the daily digest queries exactly the papers published in the last 24
hours, attempts one email per user whose digest flag is enabled (a failed send
does not stop the remaining sends), and hands every recipient that same paper
list. In the concrete scenario — two subscribed users, one unsubscribed user,
three papers published within 24 hours and one published 48 hours ago, the
send to the first user failing — there are two recipients, each body lists
exactly the three recent papers (newest first), and the sent count is 1. -/
theorem daily_digest_behaviour :
    (∀ (now : Int) (store : List Paper) (p : Paper),
      p ∈ get_papers_since 24 now store ↔
        p ∈ store ∧ now - 86400 ≤ p.published_date) ∧
    (∀ (now : Int) (store : List Paper) (users : List DUser)
        (sendOk : String → Bool),
      (send_daily_digest now store users sendOk).2.map (fun a => a.1) =
        (users.filter (fun u => u.email_digest_enabled)).map (fun u => u.email)) ∧
    (∀ (now : Int) (store : List Paper) (users : List DUser)
        (sendOk : String → Bool),
      ∀ a ∈ (send_daily_digest now store users sendOk).2,
        a.2.1 = get_papers_since 24 now store) ∧
    send_daily_digest 1000000
        [samplePaper "p4" 827200, samplePaper "p2" 950000,
         samplePaper "p1" 999999, samplePaper "p3" 913600]
        [⟨"u1@x", true⟩, ⟨"u2@x", true⟩, ⟨"u3@x", false⟩]
        (fun e => e != "u1@x") =
      (1, [("u1@x",
            [samplePaper "p1" 999999, samplePaper "p2" 950000,
             samplePaper "p3" 913600], false),
           ("u2@x",
            [samplePaper "p1" 999999, samplePaper "p2" 950000,
             samplePaper "p3" 913600], true)]) := by
  refine ⟨?_, ?_, ?_, by decide⟩
  · intro now store p
    unfold get_papers_since
    rw [mem_sortByDateDesc, List.mem_filter]
    simp only [decide_eq_true_eq]
    constructor
    · rintro ⟨h1, h2⟩
      refine ⟨h1, ?_⟩
      have : (24 : Int) * 3600 = 86400 := by norm_num
      rw [← this]
      exact h2
    · rintro ⟨h1, h2⟩
      refine ⟨h1, ?_⟩
      have : (24 : Int) * 3600 = 86400 := by norm_num
      rw [this]
      exact h2
  · intro now store users sendOk
    unfold send_daily_digest
    simp [List.map_map, Function.comp]
  · intro now store users sendOk a ha
    unfold send_daily_digest at ha
    simp only [List.mem_map] at ha
    obtain ⟨u, -, hu⟩ := ha
    rw [← hu]

/-- C8: a journal entry whose published-date string is missing or fails to
parse gets the current ingestion time as its published timestamp, and such an
entry is never dropped for its date: whenever the entry passes the filter and
carries a fresh external id, it is stored, and its stored timestamp is `now`.
Also, `parse_date` itself maps a missing string, an empty string, and a string
the parser raises on, all to `now`. -/
theorem unparseable_date_defaults_to_now (now : Int) (pd : String → Option Int)
    (f : Bool) (t : List String) (cfg : FeedConfig) (store : List Paper)
    (e : RawEntry) (k : String)
    (hdate : ∀ s : String, journalDateStr e = some s → pd s = none ∨ s = "")
    (hk : journalKey f t e = some k)
    (hfresh : store.find? (fun p => p.external_id == k) = none) :
    parse_date now pd none = now ∧
    parse_date now pd (some "") = now ∧
    (∀ s : String, pd s = none → parse_date now pd (some s) = now) ∧
    ∃ p : Paper,
      processJournalEntry f t cfg now pd store e = ([p], store ++ [p]) ∧
      p.published_date = now := by
  have hps : ∀ s : String, pd s = none ∨ s = "" → parse_date now pd (some s) = now := by
    intro s hs
    unfold parse_date
    dsimp only
    by_cases hse : (s == "") = true
    · rw [if_pos hse]
    · rcases hs with h | h
      · rw [if_neg hse, h]
      · subst h
        simp at hse
  refine ⟨rfl, by simp [parse_date], fun s h => hps s (Or.inl h), ?_⟩
  refine ⟨mkJournalPaper cfg now pd e k, ?_, ?_⟩
  · rw [processJournalEntry_eq, hk]
    dsimp only
    rw [hfresh]
  have hfield : (mkJournalPaper cfg now pd e k).published_date =
      parse_date now pd (journalDateStr e) := rfl
  rw [hfield]
  cases hd : journalDateStr e with
  | none => rfl
  | some s => exact hps s (hdate s hd)

/-- Witness for C8 at a concrete input: an entry with a date string the parser
rejects is still stored, with the ingestion time 99 as its timestamp. -/
theorem unparseable_date_witness :
    ∃ p : Paper,
      processJournalEntry false [] ⟨"J", "u", "j"⟩ 99 (fun _ => none) []
          { id := some "x", published := some "not-a-date" } = ([p], [] ++ [p]) ∧
      p.published_date = 99 :=
  (unparseable_date_defaults_to_now 99 (fun _ => none) false [] ⟨"J", "u", "j"⟩ []
    { id := some "x", published := some "not-a-date" } "x"
    (fun _ _ => Or.inl rfl) (by decide) rfl).2.2.2

/-- C9: registration and login normalize the submitted email identically
(strip then lowercase), so two submissions that normalize alike refer to the
same account: registering the first stores the normalized address, logging in
with the second finds that user (and the password check passes), and
registering the second is rejected as a duplicate. The external validator is
assumed to accept the normalized address unchanged, as `email_validator` does
for a valid ASCII address that is already lowercase. -/
theorem email_case_insensitive (validate : String → Option String)
    (hash : String → String) (users : List AuthUser) (e1 e2 pw : String)
    (hcase : strLower (pyStrip e1) = strLower (pyStrip e2))
    (hvalid : validate (strLower (pyStrip e1)) = some (strLower (pyStrip e1)))
    (hnew : users.find? (fun u => u.email == strLower (pyStrip e1)) = none)
    (hpw : 8 ≤ pw.length) :
    register validate hash users e1 pw pw =
      Except.ok (users ++ [⟨strLower (pyStrip e1), hash pw, false⟩]) ∧
    login hash (users ++ [⟨strLower (pyStrip e1), hash pw, false⟩]) e2 pw =
      some ⟨strLower (pyStrip e1), hash pw, false⟩ ∧
    register validate hash (users ++ [⟨strLower (pyStrip e1), hash pw, false⟩])
        e2 pw pw =
      Except.error "Email already registered." := by
  have hlen : ¬ pw.length < 8 := by omega
  have hbne : (pw != pw) = false := by simp
  have hfind2 : (users ++ [(⟨strLower (pyStrip e1), hash pw, false⟩ : AuthUser)]).find?
      (fun u => u.email == strLower (pyStrip e1)) =
      some ⟨strLower (pyStrip e1), hash pw, false⟩ := by
    rw [List.find?_append, hnew]
    simp
  refine ⟨?_, ?_, ?_⟩
  · unfold register
    dsimp only
    rw [hvalid]
    dsimp only
    rw [if_neg hlen, hbne, hnew]
    rfl
  · unfold login
    dsimp only
    rw [← hcase, hfind2]
    simp
  · unfold register
    dsimp only
    rw [← hcase, hvalid]
    dsimp only
    rw [if_neg hlen, hbne, hfind2]
    rfl

/-- Witness for C9 at a concrete input: registering a mixed-case address with
surrounding blanks and logging in with its lowercase form finds the stored
user. -/
theorem email_case_insensitive_witness :
    login (fun p => p ++ "#")
        ([] ++ [⟨"alice@example.com", "password123" ++ "#", false⟩])
        "alice@example.com" "password123" =
      some ⟨"alice@example.com", "password123" ++ "#", false⟩ :=
  (email_case_insensitive (fun s => some s) (fun p => p ++ "#") []
    " Alice@Example.COM " "alice@example.com" "password123"
    (by decide) (by decide) rfl (by decide)).2.1

/-- C10: every keyword set the tagger produces is a duplicate-free sublist of
the fixed vocabulary, and hence so is the keyword list attached to every paper
either pipeline constructs. -/
theorem extract_keywords_in_vocab :
    (∀ title abstract : String,
      extract_keywords title abstract ⊆ PHYSICS_KEYWORDS ∧
      (extract_keywords title abstract).Nodup) ∧
    (∀ (cfg : FeedConfig) (now : Int) (pd : String → Option Int) (e : RawEntry)
        (k : String),
      (mkJournalPaper cfg now pd e k).keywords ⊆ PHYSICS_KEYWORDS ∧
      (mkJournalPaper cfg now pd e k).keywords.Nodup) ∧
    (∀ r : ArxivResult,
      (mkArxivPaper r).keywords ⊆ PHYSICS_KEYWORDS ∧
      (mkArxivPaper r).keywords.Nodup) := by
  have hmain : ∀ title abstract : String,
      extract_keywords title abstract ⊆ PHYSICS_KEYWORDS ∧
      (extract_keywords title abstract).Nodup := by
    intro title abstract
    constructor
    · intro kw hkw
      exact (List.mem_filter.1 hkw).1
    · exact List.Nodup.filter _ (by decide)
  exact ⟨hmain, fun cfg now pd e k => hmain _ _, fun r => hmain _ _⟩

end TheoryScrapper
